import Mathlib

/-!
Formal model of the bbolt salvage tool (src/main.go of
scyto/portainer-database-salvage).

The program lists the top-level buckets of a corrupt source database,
reads each bucket inside a panic-recovering `recoverBucket`, and writes
the staged key/value pairs and one level of sub-buckets into a fresh
destination database, one write transaction per top-level bucket.

The embedding below models:
  * the observable behaviour of one source bucket's enumeration as the
    list of entries it yields followed by how the enumeration ends
    (normal return, an ordinary error such as "bucket not found", or a
    panic raised by the storage engine on a corrupt page);
  * the destination database as an association list of named buckets,
    each bucket holding an association list of pairs and an association
    list of sub-buckets (bbolt keys are unique within a bucket, and
    `Put` overwrites);
  * the fallible destination operations (`Put`, `CreateBucketIfNotExists`
    and the transaction commit) through an environment of boolean
    functions, mirroring the fact that in bbolt these fail deterministically
    depending on the key and value (empty key, size limits) or on the
    store state (disk full at commit).

Byte strings are modelled as `List Nat`.
-/

abbrev Bytes := List Nat

/-- One direct entry of a sub-bucket as yielded by `ForEach` inside
`recoverSubBucket`: a key and, when the entry is a flat key/value pair,
its value; `val = none` models bbolt's nil value marking a nested bucket
at depth greater than one, which `recoverSubBucket` skips. -/
structure SubEntry where
  key : Bytes
  val : Option Bytes
deriving DecidableEq, Repr

/-- Observable behaviour of one sub-bucket of a top-level bucket:
the entries its `ForEach` yields, in source order, and whether the
enumeration ends in a panic (caught inside `recoverSubBucket`, which
keeps the pairs staged so far) instead of returning normally. -/
structure SubBucketSrc where
  entries : List SubEntry
  panics : Bool
deriving DecidableEq, Repr

/-- One direct entry of a top-level bucket as yielded by `ForEach` inside
`recoverBucket`: either a flat key/value pair (`v != nil` in the Go code,
including a present but zero-length value), or a nested-bucket marker
(`v == nil`); for a marker, `child` is the result of `b.Bucket(k)`,
which the code checks against nil (`child = none` models `sub == nil`,
in which case the marker is skipped). -/
inductive TopEntry where
  | kv (key val : Bytes)
  | marker (key : Bytes) (child : Option SubBucketSrc)
deriving DecidableEq, Repr

/-- How the read transaction (`src.View`) of one top-level bucket ends:
normally, with an ordinary Go error (for example "bucket not found" when
`tx.Bucket(name)` is nil, in which case no entries were yielded), or with
a panic raised while enumerating this bucket's own direct entries. -/
inductive ReadOutcome where
  | ok
  | errored
  | panicked
deriving DecidableEq, Repr

/-- Observable behaviour of one listed top-level bucket of the source
store: its name, the direct entries its enumeration yields before
terminating, and how the enumeration terminates. -/
structure TopBucketSrc where
  name : Bytes
  entries : List TopEntry
  outcome : ReadOutcome
deriving DecidableEq, Repr

/-- The fallible destination-store operations used during the write
transaction, as deterministic predicates: whether `Put k v` succeeds,
whether `CreateBucketIfNotExists` succeeds for a sub-bucket name and for
a top-level bucket name, and whether the transaction for a given
top-level bucket commits. -/
structure Env where
  putOk : Bytes → Bytes → Bool
  createSubOk : Bytes → Bool
  createTopOk : Bytes → Bool
  commitOk : Bytes → Bool

/-- A destination environment in which every destination operation
succeeds (a healthy destination store with no key/value exceeding the
format limits). -/
def permissiveEnv : Env :=
  ⟨fun _ _ => true, fun _ => true, fun _ => true, fun _ => true⟩

/-- Lookup in an association list keyed by byte strings. -/
def lookupA {α : Type} : List (Bytes × α) → Bytes → Option α
  | [], _ => none
  | (k, v) :: t, n => if k = n then some v else lookupA t n

/-- Insert-or-overwrite in an association list keyed by byte strings:
the semantics of bbolt's `Put` (keys are unique within a bucket). -/
def putA {α : Type} : List (Bytes × α) → Bytes → α → List (Bytes × α)
  | [], k, v => [(k, v)]
  | (k', v') :: t, k, v =>
    if k' = k then (k, v) :: t else (k', v') :: putA t k v

/-- Content of one bucket of the destination store: its flat key/value
pairs and its sub-buckets (each a list of flat pairs; the tool writes at
most one level of sub-buckets). -/
structure DestBucket where
  pairs : List (Bytes × Bytes)
  subs : List (Bytes × List (Bytes × Bytes))
deriving DecidableEq, Repr

/-- The destination store: named top-level buckets. -/
abbrev Dest := List (Bytes × DestBucket)

/-- The pairs `recoverSubBucket` stages for one sub-bucket: every entry
the enumeration yielded that carries a value, in source order; entries
with a nil value (deeper nesting) are skipped.  A panic ends the
enumeration after `c.entries`, and the deferred `recover()` keeps the
named return `pairs` accumulated so far, so the staged list is the same
whether the enumeration panicked or returned. -/
def recoverSubBucket (c : SubBucketSrc) : List (Bytes × Bytes) :=
  c.entries.filterMap fun e => e.val.map fun v => (e.key, v)

/-- The flat pairs `recoverBucket` stages from a top-level bucket's
yielded entries (the `pairs` slice): every `kv` entry, in source order. -/
def stagePairs (l : List TopEntry) : List (Bytes × Bytes) :=
  l.filterMap fun e =>
    match e with
    | .kv k v => some (k, v)
    | .marker _ _ => none

/-- The sub-buckets `recoverBucket` stages from a top-level bucket's
yielded entries (the `subs` slice): every marker whose `b.Bucket(k)` is
non-nil, paired with the pairs `recoverSubBucket` staged for it. -/
def stageSubs (l : List TopEntry) : List (Bytes × List (Bytes × Bytes)) :=
  l.filterMap fun e =>
    match e with
    | .kv _ _ => none
    | .marker k child => child.map fun c => (k, recoverSubBucket c)

/-- The loop over `pairs` in the write transaction: each staged pair is
`Put` into the bucket; a failed `Put` is skipped with a warning and the
loop continues; the returned count is the number of successful puts
(the increments of `recovered`). -/
def putPairs (env : Env) (acc : List (Bytes × Bytes)) :
    List (Bytes × Bytes) → List (Bytes × Bytes) × Nat
  | [] => (acc, 0)
  | (k, v) :: t =>
    if env.putOk k v then
      let r := putPairs env (putA acc k v) t
      (r.1, r.2 + 1)
    else putPairs env acc t

/-- The loop over `subs` in the write transaction: for each staged
sub-bucket, `CreateBucketIfNotExists` is attempted (a failure skips the
whole sub-bucket with a warning), then every staged pair is `Put` into
the child, failed puts being skipped silently; the count again counts
successful puts. -/
def putSubs (env : Env) (acc : List (Bytes × List (Bytes × Bytes))) :
    List (Bytes × List (Bytes × Bytes)) →
      List (Bytes × List (Bytes × Bytes)) × Nat
  | [] => (acc, 0)
  | (sname, sdata) :: t =>
    if env.createSubOk sname then
      let child := (lookupA acc sname).getD []
      let r1 := putPairs env child sdata
      let r2 := putSubs env (putA acc sname r1.1) t
      (r2.1, r1.2 + r2.2)
    else putSubs env acc t

/-- Body of the write transaction after the top-level
`CreateBucketIfNotExists` succeeded: write the staged pairs, then the
staged sub-buckets, into the (possibly pre-existing) bucket content. -/
def writeContent (env : Env) (c : DestBucket)
    (pairs : List (Bytes × Bytes))
    (subs : List (Bytes × List (Bytes × Bytes))) : DestBucket × Nat :=
  let r1 := putPairs env c.pairs pairs
  let r2 := putSubs env c.subs subs
  (⟨r1.1, r2.1⟩, r1.2 + r2.2)

/-- Result of `recoverBucket`: the destination store after the call, the
named return `recovered` (successful destination puts), and the named
return `ok`. -/
structure BucketResult where
  dest : Dest
  recovered : Nat
  ok : Bool
deriving DecidableEq, Repr

/-- Model of `recoverBucket` (src/main.go lines 89-172).

If the read transaction panics, the deferred `recover()` at the top of
the function catches the unwind after the staging local variables are
discarded and before the write transaction is reached: the destination
is untouched, `recovered` is still 0 and `ok` is set to false.

Otherwise (normal return or ordinary read error, which is only printed),
the write transaction runs on whatever was staged: the top-level
`CreateBucketIfNotExists` failing makes the transaction return an error
(nothing written, rollback, `ok = false`); otherwise the staged pairs
and sub-buckets are written, and a commit failure rolls the transaction
back while keeping the already-incremented `recovered` and returning
`ok = false`. -/
def recoverBucket (env : Env) (dest : Dest) (b : TopBucketSrc) :
    BucketResult :=
  if b.outcome = .panicked then ⟨dest, 0, false⟩
  else if env.createTopOk b.name then
    let c0 := (lookupA dest b.name).getD ⟨[], []⟩
    let r := writeContent env c0 (stagePairs b.entries) (stageSubs b.entries)
    if env.commitOk b.name then ⟨putA dest b.name r.1, r.2, true⟩
    else ⟨dest, r.2, false⟩
  else ⟨dest, 0, false⟩

/-- Aggregate result of the per-bucket loop in `main`: the destination
store, `totalKeys` and `failedBuckets`. -/
structure RunResult where
  dest : Dest
  totalKeys : Nat
  failedBuckets : Nat
deriving DecidableEq, Repr

/-- The per-bucket loop of `main` (lines 59-65), starting from a given
destination store: visit every listed bucket in order, accumulate the
recovered-key total and count the buckets whose `recoverBucket` returned
`ok = false`. -/
def runAux (env : Env) (dest : Dest) : List TopBucketSrc → RunResult
  | [] => ⟨dest, 0, 0⟩
  | b :: rest =>
    let r := recoverBucket env dest b
    let rr := runAux env r.dest rest
    ⟨rr.dest, r.recovered + rr.totalKeys,
      (if r.ok then 0 else 1) + rr.failedBuckets⟩

/-- A whole run of the engine against a freshly created, empty
destination store. -/
def runRecovery (env : Env) (bs : List TopBucketSrc) : RunResult :=
  runAux env [] bs

/-- The process exit status computed at the end of `main` (lines 72-74),
given that both stores opened: 1 when at least one bucket failed,
otherwise 0. -/
def exitCode (r : RunResult) : Nat :=
  if r.failedBuckets > 0 then 1 else 0

/-- Number of key/value entries stored in one destination bucket,
counting its flat pairs and the pairs of its sub-buckets. -/
def bucketCount (c : DestBucket) : Nat :=
  c.pairs.length + (c.subs.map fun s => s.2.length).sum

/-- Number of key/value entries present in the destination store. -/
def destCount (d : Dest) : Nat :=
  (d.map fun p => bucketCount p.2).sum

/-- View of one key inside one destination bucket: `none` when the
bucket does not exist, otherwise the flat value stored under the key and
the sub-bucket stored under the key, if any. -/
def bucketView (d : Dest) (name k : Bytes) :
    Option (Option Bytes × Option (List (Bytes × Bytes))) :=
  (lookupA d name).map fun c => (lookupA c.pairs k, lookupA c.subs k)

/-- Clearing the panic flag of the sub-bucket behind one top-level
entry, leaving the yielded entries unchanged: the entry "as if the
sub-bucket had no fault". -/
def clearSubEntry : TopEntry → TopEntry
  | .kv k v => .kv k v
  | .marker k child => .marker k (child.map fun c => ⟨c.entries, false⟩)

/-- A top-level bucket with every sub-bucket's panic flag cleared. -/
def clearSubPanics (b : TopBucketSrc) : TopBucketSrc :=
  ⟨b.name, b.entries.map clearSubEntry, b.outcome⟩

/-- Dropping the nested-bucket markers (depth greater than one) from the
sub-bucket behind one top-level entry. -/
def dropDeepEntry : TopEntry → TopEntry
  | .kv k v => .kv k v
  | .marker k child =>
    .marker k (child.map fun c =>
      ⟨c.entries.filter (fun e => e.val.isSome), c.panics⟩)

/-- A top-level bucket with every depth-greater-than-one marker removed
from its sub-buckets. -/
def dropDeepMarkers (b : TopBucketSrc) : TopBucketSrc :=
  ⟨b.name, b.entries.map dropDeepEntry, b.outcome⟩

/-- The key of a top-level entry, whether flat pair or marker. -/
def topKey : TopEntry → Bytes
  | .kv k _ => k
  | .marker k _ => k

/-- A destination environment in which every per-key operation succeeds
but no transaction commits (for example, the destination disk filling up
at every commit). -/
def envNoCommit : Env :=
  ⟨fun _ _ => true, fun _ => true, fun _ => true, fun _ => false⟩

/-- Two destination stores that agree (as key-to-bucket maps) everywhere
except possibly at the bucket named `x`. -/
def AgreeExcept (x : Bytes) (d1 d2 : Dest) : Prop :=
  ∀ n, n ≠ x → lookupA d1 n = lookupA d2 n

/-!  Helper lemmas about the association-list operations and the engine. -/

theorem lookupA_putA_self {α : Type} (l : List (Bytes × α)) (k : Bytes)
    (v : α) : lookupA (putA l k v) k = some v := by
  induction l with
  | nil => simp [putA, lookupA]
  | cons p t ih =>
    obtain ⟨k', v'⟩ := p
    by_cases h : k' = k
    · simp [putA, h, lookupA]
    · simp [putA, h, lookupA, ih]

theorem lookupA_putA_ne {α : Type} (l : List (Bytes × α)) (k n : Bytes)
    (v : α) (h : n ≠ k) : lookupA (putA l k v) n = lookupA l n := by
  have h' : k ≠ n := Ne.symm h
  induction l with
  | nil => simp [putA, lookupA, h']
  | cons p t ih =>
    obtain ⟨k', v'⟩ := p
    by_cases hk : k' = k
    · subst hk
      simp [putA, lookupA, h']
    · simp only [putA, if_neg hk, lookupA]
      by_cases hn : k' = n <;> simp [hn, ih]

theorem lookupA_eq_none_of_notmem {α : Type} (l : List (Bytes × α))
    (k : Bytes) (h : k ∉ l.map Prod.fst) : lookupA l k = none := by
  induction l with
  | nil => rfl
  | cons p t ih =>
    obtain ⟨k', v'⟩ := p
    simp only [List.map_cons, List.mem_cons] at h
    push_neg at h
    simp only [lookupA, if_neg (Ne.symm h.1)]
    exact ih h.2

theorem putA_of_notmem {α : Type} (l : List (Bytes × α)) (k : Bytes)
    (v : α) (h : k ∉ l.map Prod.fst) : putA l k v = l ++ [(k, v)] := by
  induction l with
  | nil => rfl
  | cons p t ih =>
    obtain ⟨k', v'⟩ := p
    simp only [List.map_cons, List.mem_cons] at h
    push_neg at h
    simp only [putA, if_neg (Ne.symm h.1), List.cons_append]
    rw [ih h.2]

theorem putA_map_fst_subset {α : Type} (l : List (Bytes × α)) (k : Bytes)
    (v : α) : (putA l k v).map Prod.fst ⊆ l.map Prod.fst ++ [k] := by
  induction l with
  | nil => simp [putA]
  | cons p t ih =>
    obtain ⟨k', v'⟩ := p
    by_cases h : k' = k
    · subst h
      simp only [putA, if_pos rfl, List.map_cons, List.cons_append]
      intro a ha
      rcases List.mem_cons.mp ha with ha | ha
      · exact ha ▸ List.mem_cons_self _ _
      · exact List.mem_cons_of_mem _ (List.mem_append.mpr (Or.inl ha))
    · simp only [putA, if_neg h, List.map_cons, List.cons_append]
      intro a ha
      rcases List.mem_cons.mp ha with ha | ha
      · exact ha ▸ List.mem_cons_self _ _
      · exact List.mem_cons_of_mem _ (ih ha)

theorem recoverBucket_lookup_ne (env : Env) (d : Dest) (b : TopBucketSrc)
    (n : Bytes) (h : n ≠ b.name) :
    lookupA (recoverBucket env d b).dest n = lookupA d n := by
  simp only [recoverBucket]
  split_ifs <;> simp [lookupA_putA_ne _ _ _ _ h]

theorem recoverBucket_lookup_eq (env : Env) (d1 d2 : Dest)
    (b : TopBucketSrc) (h : lookupA d1 b.name = lookupA d2 b.name) :
    lookupA (recoverBucket env d1 b).dest b.name
      = lookupA (recoverBucket env d2 b).dest b.name := by
  simp only [recoverBucket]
  split_ifs <;> simp [lookupA_putA_self, h]

theorem recoverBucket_ok_iff (env : Env) (d : Dest) (b : TopBucketSrc) :
    (recoverBucket env d b).ok = true ↔
      (b.outcome ≠ .panicked ∧ env.createTopOk b.name = true ∧
        env.commitOk b.name = true) := by
  simp only [recoverBucket]
  split_ifs with h1 h2 h3 <;> simp_all

theorem runAux_append (env : Env) (d : Dest)
    (l1 l2 : List TopBucketSrc) :
    runAux env d (l1 ++ l2) =
      ⟨(runAux env (runAux env d l1).dest l2).dest,
        (runAux env d l1).totalKeys
          + (runAux env (runAux env d l1).dest l2).totalKeys,
        (runAux env d l1).failedBuckets
          + (runAux env (runAux env d l1).dest l2).failedBuckets⟩ := by
  induction l1 generalizing d with
  | nil => simp [runAux]
  | cons b t ih => simp [runAux, ih, Nat.add_assoc]

theorem agreeExcept_step (env : Env) (x : Bytes) (d1 d2 : Dest)
    (c : TopBucketSrc) (hag : AgreeExcept x d1 d2) :
    AgreeExcept x (recoverBucket env d1 c).dest
      (recoverBucket env d2 c).dest := by
  intro n hn
  by_cases hnc : n = c.name
  · subst hnc
    exact recoverBucket_lookup_eq env d1 d2 c (hag _ hn)
  · rw [recoverBucket_lookup_ne env d1 c n hnc,
      recoverBucket_lookup_ne env d2 c n hnc]
    exact hag n hn

theorem agreeExcept_runAux (env : Env) (x : Bytes)
    (bs : List TopBucketSrc) : ∀ d1 d2, AgreeExcept x d1 d2 →
      AgreeExcept x (runAux env d1 bs).dest (runAux env d2 bs).dest := by
  induction bs with
  | nil => intro d1 d2 h; simpa [runAux] using h
  | cons b t ih =>
    intro d1 d2 h
    simp only [runAux]
    exact ih _ _ (agreeExcept_step env x d1 d2 b h)

theorem stagePairs_map_clear (l : List TopEntry) :
    stagePairs (l.map clearSubEntry) = stagePairs l := by
  induction l with
  | nil => rfl
  | cons e t ih => cases e <;> simp [stagePairs, clearSubEntry, ih] <;>
      simpa [stagePairs] using ih

theorem stageSubs_map_clear (l : List TopEntry) :
    stageSubs (l.map clearSubEntry) = stageSubs l := by
  induction l with
  | nil => rfl
  | cons e t ih =>
    cases e with
    | kv k v => simpa [stageSubs, clearSubEntry] using ih
    | marker k child =>
      cases child with
      | none => simpa [stageSubs, clearSubEntry] using ih
      | some c =>
        show (k, recoverSubBucket c) :: stageSubs (t.map clearSubEntry)
            = (k, recoverSubBucket c) :: stageSubs t
        rw [ih]

theorem recoverBucket_congr (env : Env) (d : Dest) (b b' : TopBucketSrc)
    (hname : b'.name = b.name) (hout : b'.outcome = b.outcome)
    (hp : stagePairs b'.entries = stagePairs b.entries)
    (hs : stageSubs b'.entries = stageSubs b.entries) :
    recoverBucket env d b' = recoverBucket env d b := by
  simp [recoverBucket, hname, hout, hp, hs]

theorem runAux_map_clearSubPanics (env : Env) (bs : List TopBucketSrc) :
    ∀ d, runAux env d (bs.map clearSubPanics) = runAux env d bs := by
  induction bs with
  | nil => intro d; rfl
  | cons b t ih =>
    intro d
    simp only [List.map_cons, runAux]
    rw [recoverBucket_congr env d b (clearSubPanics b) rfl rfl
      (stagePairs_map_clear b.entries) (stageSubs_map_clear b.entries),
      ih]

theorem filterMap_val_filter_isSome (es : List SubEntry) :
    (es.filter fun e => e.val.isSome).filterMap
        (fun e => e.val.map fun v => (e.key, v))
      = es.filterMap fun e => e.val.map fun v => (e.key, v) := by
  induction es with
  | nil => rfl
  | cons e t ih => cases h : e.val <;> simp [List.filter_cons, h, ih]

theorem recoverSubBucket_dropDeep (c : SubBucketSrc) :
    recoverSubBucket ⟨c.entries.filter (fun e => e.val.isSome), c.panics⟩
      = recoverSubBucket c := by
  simp [recoverSubBucket, filterMap_val_filter_isSome]

theorem stagePairs_map_dropDeep (l : List TopEntry) :
    stagePairs (l.map dropDeepEntry) = stagePairs l := by
  induction l with
  | nil => rfl
  | cons e t ih => cases e <;> simpa [stagePairs, dropDeepEntry] using ih

theorem stageSubs_map_dropDeep (l : List TopEntry) :
    stageSubs (l.map dropDeepEntry) = stageSubs l := by
  induction l with
  | nil => rfl
  | cons e t ih =>
    cases e with
    | kv k v => simpa [stageSubs, dropDeepEntry] using ih
    | marker k child =>
      cases child with
      | none => simpa [stageSubs, dropDeepEntry] using ih
      | some c =>
        show (k, recoverSubBucket
              ⟨c.entries.filter (fun e => e.val.isSome), c.panics⟩)
            :: stageSubs (t.map dropDeepEntry)
            = (k, recoverSubBucket c) :: stageSubs t
        rw [recoverSubBucket_dropDeep c, ih]

theorem runAux_map_dropDeepMarkers (env : Env) (bs : List TopBucketSrc) :
    ∀ d, runAux env d (bs.map dropDeepMarkers) = runAux env d bs := by
  induction bs with
  | nil => intro d; rfl
  | cons b t ih =>
    intro d
    simp only [List.map_cons, runAux]
    rw [recoverBucket_congr env d b (dropDeepMarkers b) rfl rfl
      (stagePairs_map_dropDeep b.entries) (stageSubs_map_dropDeep b.entries),
      ih]

theorem putPairs_filter (env : Env) (l : List (Bytes × Bytes)) :
    ∀ acc, putPairs env acc (l.filter fun p => env.putOk p.1 p.2)
      = putPairs env acc l := by
  induction l with
  | nil => intro acc; rfl
  | cons p t ih =>
    intro acc
    obtain ⟨k, v⟩ := p
    by_cases h : env.putOk k v <;>
      simp [putPairs, List.filter_cons, h, ih]

theorem putSubs_filter (env : Env)
    (l : List (Bytes × List (Bytes × Bytes))) :
    ∀ acc, putSubs env acc ((l.filter fun s => env.createSubOk s.1).map
        fun s => (s.1, s.2.filter fun p => env.putOk p.1 p.2))
      = putSubs env acc l := by
  induction l with
  | nil => intro acc; rfl
  | cons s t ih =>
    intro acc
    obtain ⟨sname, sdata⟩ := s
    by_cases h : env.createSubOk sname <;>
      simp [putSubs, List.filter_cons, h, ih, putPairs_filter]

theorem putPairs_append_fst (env : Env) (l1 l2 : List (Bytes × Bytes)) :
    ∀ acc, (putPairs env acc (l1 ++ l2)).1
      = (putPairs env (putPairs env acc l1).1 l2).1 := by
  induction l1 with
  | nil => intro acc; rfl
  | cons p t ih =>
    intro acc
    obtain ⟨k, v⟩ := p
    by_cases h : env.putOk k v <;> simp [putPairs, h, ih]

theorem putPairs_lookup_notmem (env : Env) (l : List (Bytes × Bytes))
    (k : Bytes) (h : ∀ p ∈ l, p.1 ≠ k) :
    ∀ acc, lookupA (putPairs env acc l).1 k = lookupA acc k := by
  induction l with
  | nil => intro acc; rfl
  | cons p t ih =>
    intro acc
    obtain ⟨k', v'⟩ := p
    have hk : k' ≠ k := h (k', v') (List.mem_cons_self _ _)
    have ht : ∀ p ∈ t, p.1 ≠ k := fun p hp => h p (List.mem_cons_of_mem _ hp)
    by_cases hp : env.putOk k' v'
    · simp only [putPairs, hp, if_true]
      rw [ih ht, lookupA_putA_ne acc k' k v' (Ne.symm hk)]
    · simp only [putPairs, hp, if_false]
      exact ih ht acc

theorem putSubs_lookup_notmem (env : Env)
    (l : List (Bytes × List (Bytes × Bytes))) (k : Bytes)
    (h : ∀ s ∈ l, s.1 ≠ k) :
    ∀ acc, lookupA (putSubs env acc l).1 k = lookupA acc k := by
  induction l with
  | nil => intro acc; rfl
  | cons s t ih =>
    intro acc
    obtain ⟨sname, sdata⟩ := s
    have hk : sname ≠ k := h (sname, sdata) (List.mem_cons_self _ _)
    have ht : ∀ s ∈ t, s.1 ≠ k := fun s hs => h s (List.mem_cons_of_mem _ hs)
    by_cases hc : env.createSubOk sname
    · simp only [putSubs, hc, if_true]
      rw [ih ht, lookupA_putA_ne acc sname k _ (Ne.symm hk)]
    · simp only [putSubs, hc, if_false]
      exact ih ht acc

theorem mem_stagePairs_key (l : List TopEntry) (p : Bytes × Bytes)
    (h : p ∈ stagePairs l) : ∃ e ∈ l, topKey e = p.1 := by
  simp only [stagePairs, List.mem_filterMap] at h
  obtain ⟨e, he, hm⟩ := h
  refine ⟨e, he, ?_⟩
  cases e with
  | kv k v =>
    simp only [Option.some.injEq] at hm
    rw [← hm]
    rfl
  | marker k c => simp at hm

theorem mem_stageSubs_key (l : List TopEntry)
    (s : Bytes × List (Bytes × Bytes)) (h : s ∈ stageSubs l) :
    ∃ e ∈ l, topKey e = s.1 := by
  simp only [stageSubs, List.mem_filterMap] at h
  obtain ⟨e, he, hm⟩ := h
  refine ⟨e, he, ?_⟩
  cases e with
  | kv k v => simp at hm
  | marker k c =>
    cases c with
    | none => simp at hm
    | some c0 =>
      have hm' : (k, recoverSubBucket c0) = s := by simpa using hm
      rw [← hm']
      rfl

theorem putPairs_disjoint_char (env : Env) (l : List (Bytes × Bytes)) :
    ∀ acc, (l.map Prod.fst).Nodup →
      (∀ p ∈ l, p.1 ∉ acc.map Prod.fst) →
      (putPairs env acc l).1
          = acc ++ l.filter (fun p => env.putOk p.1 p.2) ∧
        (putPairs env acc l).2
          = (l.filter (fun p => env.putOk p.1 p.2)).length := by
  induction l with
  | nil => intro acc _ _; simp [putPairs]
  | cons p t ih =>
    intro acc hnd hdisj
    obtain ⟨k, v⟩ := p
    simp only [List.map_cons, List.nodup_cons] at hnd
    have hknotin : k ∉ acc.map Prod.fst :=
      hdisj (k, v) (List.mem_cons_self _ _)
    by_cases hp : env.putOk k v
    · have hput : putA acc k v = acc ++ [(k, v)] :=
        putA_of_notmem acc k v hknotin
      have hdisj' : ∀ q ∈ t, q.1 ∉ (putA acc k v).map Prod.fst := by
        intro q hq
        rw [hput]
        simp only [List.map_append, List.mem_append, List.map_cons,
          List.map_nil, List.mem_singleton]
        push_neg
        refine ⟨hdisj q (List.mem_cons_of_mem _ hq), ?_⟩
        intro he
        exact hnd.1 (he ▸ List.mem_map_of_mem Prod.fst hq)
      obtain ⟨h1, h2⟩ := ih (putA acc k v) hnd.2 hdisj'
      constructor
      · simp only [putPairs, hp, if_true]
        rw [h1, hput]
        simp [List.filter_cons, hp]
      · simp only [putPairs, hp, if_true]
        rw [h2]
        simp [List.filter_cons, hp]
    · have := ih acc hnd.2
        (fun q hq => hdisj q (List.mem_cons_of_mem _ hq))
      simp only [putPairs, hp, if_false, List.filter_cons]
      simpa [hp] using this

theorem putSubs_count (env : Env)
    (l : List (Bytes × List (Bytes × Bytes))) :
    ∀ acc, (l.map Prod.fst).Nodup →
      (∀ s ∈ l, s.1 ∉ acc.map Prod.fst) →
      (∀ s ∈ l, (s.2.map Prod.fst).Nodup) →
      ((putSubs env acc l).1.map fun s => s.2.length).sum
        = (acc.map fun s => s.2.length).sum + (putSubs env acc l).2 := by
  induction l with
  | nil => intro acc _ _ _; simp [putSubs]
  | cons s t ih =>
    intro acc hnd hdisj hkeys
    obtain ⟨sname, sdata⟩ := s
    simp only [List.map_cons, List.nodup_cons] at hnd
    by_cases hc : env.createSubOk sname
    · have hni : sname ∉ acc.map Prod.fst :=
        hdisj _ (List.mem_cons_self _ _)
      have hlk : lookupA acc sname = none :=
        lookupA_eq_none_of_notmem acc sname hni
      obtain ⟨hch1, hch2⟩ := putPairs_disjoint_char env sdata []
        (hkeys _ (List.mem_cons_self _ _)) (by simp)
      have hlen : (putPairs env [] sdata).1.length
          = (putPairs env [] sdata).2 := by
        rw [hch1, hch2]; simp
      have hput : putA acc sname (putPairs env [] sdata).1
          = acc ++ [(sname, (putPairs env [] sdata).1)] :=
        putA_of_notmem acc sname _ hni
      have hdisj' : ∀ q ∈ t,
          q.1 ∉ (putA acc sname (putPairs env [] sdata).1).map Prod.fst := by
        intro q hq
        rw [hput]
        simp only [List.map_append, List.mem_append, List.map_cons,
          List.map_nil, List.mem_singleton]
        push_neg
        refine ⟨hdisj q (List.mem_cons_of_mem _ hq), ?_⟩
        intro he
        exact hnd.1 (he ▸ List.mem_map_of_mem Prod.fst hq)
      have hrec := ih (putA acc sname (putPairs env [] sdata).1) hnd.2
        hdisj' (fun s hs => hkeys s (List.mem_cons_of_mem _ hs))
      simp only [putSubs, hc, if_true, hlk, Option.getD_none]
      rw [hrec, hput]
      simp only [List.map_append, List.sum_append, List.map_cons,
        List.map_nil, List.sum_cons, List.sum_nil]
      omega
    · have := ih acc hnd.2
        (fun q hq => hdisj q (List.mem_cons_of_mem _ hq))
        (fun s hs => hkeys s (List.mem_cons_of_mem _ hs))
      simp only [putSubs, hc, if_false]
      exact this

theorem writeContent_count (env : Env) (pairs : List (Bytes × Bytes))
    (subs : List (Bytes × List (Bytes × Bytes)))
    (h1 : (pairs.map Prod.fst).Nodup) (h2 : (subs.map Prod.fst).Nodup)
    (h3 : ∀ s ∈ subs, (s.2.map Prod.fst).Nodup) :
    bucketCount (writeContent env ⟨[], []⟩ pairs subs).1
      = (writeContent env ⟨[], []⟩ pairs subs).2 := by
  obtain ⟨hp1, hp2⟩ := putPairs_disjoint_char env pairs [] h1 (by simp)
  have hs := putSubs_count env subs [] h2 (by simp) h3
  simp only [writeContent, bucketCount]
  rw [hp1, hp2]
  simp only [List.map_nil, List.sum_nil, Nat.zero_add] at hs
  rw [hs]
  simp

theorem recoverBucket_count (env : Env) (d : Dest) (b : TopBucketSrc)
    (hfresh : b.name ∉ d.map Prod.fst)
    (hcm : env.commitOk b.name = true)
    (h1 : ((stagePairs b.entries).map Prod.fst).Nodup)
    (h2 : ((stageSubs b.entries).map Prod.fst).Nodup)
    (h3 : ∀ s ∈ stageSubs b.entries, (s.2.map Prod.fst).Nodup) :
    destCount (recoverBucket env d b).dest
      = destCount d + (recoverBucket env d b).recovered := by
  have hlk : lookupA d b.name = none :=
    lookupA_eq_none_of_notmem d b.name hfresh
  simp only [recoverBucket]
  split_ifs with ho hct
  · simp
  · have hput : putA d b.name
        (writeContent env ⟨[], []⟩ (stagePairs b.entries)
          (stageSubs b.entries)).1
        = d ++ [(b.name, (writeContent env ⟨[], []⟩ (stagePairs b.entries)
            (stageSubs b.entries)).1)] :=
      putA_of_notmem d b.name _ hfresh
    simp only [hcm, if_true, hlk, Option.getD_none]
    rw [hput]
    simp only [destCount, List.map_append, List.sum_append, List.map_cons,
      List.map_nil, List.sum_cons, List.sum_nil]
    rw [writeContent_count env _ _ h1 h2 h3]
    simp [destCount]
  · simp

theorem recoverBucket_names (env : Env) (d : Dest) (b : TopBucketSrc) :
    (recoverBucket env d b).dest.map Prod.fst
      ⊆ d.map Prod.fst ++ [b.name] := by
  simp only [recoverBucket]
  split_ifs with h1 h2 h3
  · exact fun a ha => List.mem_append.mpr (Or.inl ha)
  · exact putA_map_fst_subset d b.name _
  · exact fun a ha => List.mem_append.mpr (Or.inl ha)
  · exact fun a ha => List.mem_append.mpr (Or.inl ha)

theorem runAux_count (env : Env) (bs : List TopBucketSrc)
    (hnd : (bs.map fun b => b.name).Nodup)
    (hcm : ∀ b ∈ bs, env.commitOk b.name = true)
    (h1 : ∀ b ∈ bs, ((stagePairs b.entries).map Prod.fst).Nodup)
    (h2 : ∀ b ∈ bs, ((stageSubs b.entries).map Prod.fst).Nodup)
    (h3 : ∀ b ∈ bs, ∀ s ∈ stageSubs b.entries,
      (s.2.map Prod.fst).Nodup) :
    ∀ d, (∀ b ∈ bs, b.name ∉ d.map Prod.fst) →
      destCount (runAux env d bs).dest
        = destCount d + (runAux env d bs).totalKeys := by
  induction bs with
  | nil => intro d _; simp [runAux]
  | cons b t ih =>
    intro d hdisj
    simp only [List.map_cons, List.nodup_cons] at hnd
    have hstep := recoverBucket_count env d b
      (hdisj b (List.mem_cons_self _ _))
      (hcm b (List.mem_cons_self _ _))
      (h1 b (List.mem_cons_self _ _))
      (h2 b (List.mem_cons_self _ _))
      (h3 b (List.mem_cons_self _ _))
    have hdisj' : ∀ b' ∈ t,
        b'.name ∉ (recoverBucket env d b).dest.map Prod.fst := by
      intro b' hb' hmem
      have := recoverBucket_names env d b hmem
      rcases List.mem_append.mp this with hm | hm
      · exact hdisj b' (List.mem_cons_of_mem _ hb') hm
      · rw [List.mem_singleton] at hm
        exact hnd.1 (hm ▸ List.mem_map_of_mem (fun x => x.name) hb')
    have hrec := ih hnd.2
      (fun b' hb' => hcm b' (List.mem_cons_of_mem _ hb'))
      (fun b' hb' => h1 b' (List.mem_cons_of_mem _ hb'))
      (fun b' hb' => h2 b' (List.mem_cons_of_mem _ hb'))
      (fun b' hb' => h3 b' (List.mem_cons_of_mem _ hb'))
      (recoverBucket env d b).dest hdisj'
    simp only [runAux]
    rw [hrec, hstep]
    omega

theorem runAux_failed_zero (env : Env) (bs : List TopBucketSrc) :
    ∀ d, (runAux env d bs).failedBuckets = 0 ↔
      ∀ b ∈ bs, b.outcome ≠ .panicked ∧ env.createTopOk b.name = true ∧
        env.commitOk b.name = true := by
  induction bs with
  | nil => intro d; simp [runAux]
  | cons b t ih =>
    intro d
    simp only [runAux, List.mem_cons]
    constructor
    · intro hsum
      have hok : (recoverBucket env d b).ok = true := by
        cases hb : (recoverBucket env d b).ok with
        | false =>
          rw [hb] at hsum
          simp only [Bool.false_eq_true, if_false] at hsum
          omega
        | true => rfl
      have hf : (runAux env (recoverBucket env d b).dest t).failedBuckets
          = 0 := by
        rw [hok] at hsum
        simpa using hsum
      intro b' hb'
      rcases hb' with hb' | hb'
      · subst hb'
        exact (recoverBucket_ok_iff env d b').mp hok
      · exact ((ih _).mp hf) b' hb'
    · intro h
      have hok : (recoverBucket env d b).ok = true :=
        (recoverBucket_ok_iff env d b).mpr (h b (Or.inl rfl))
      have hf := (ih (recoverBucket env d b).dest).mpr
        (fun b' hb' => h b' (Or.inr hb'))
      simp [hok, hf]

/-- C1, amended: when a top-level bucket's own direct-entry enumeration
raises a panic, the deferred recover in `recoverBucket` catches the
unwind before the write transaction is reached, so the entries staged at
that level are discarded rather than written: the destination store is
left unchanged (no bucket of that name is created by this call), zero
keys are recovered and the bucket is reported failed — while the panic
still does not propagate past the per-bucket boundary: the loop
continues, and the run on the remaining buckets is unaffected apart from
one more failed bucket.  Staged-so-far data survives a fault only when
the fault is inside a sub-bucket, not at the top level. -/
theorem C1_top_panic_writes_nothing (env : Env) (d : Dest)
    (b : TopBucketSrc) (rest : List TopBucketSrc)
    (h : b.outcome = .panicked) :
    recoverBucket env d b = ⟨d, 0, false⟩ ∧
    runAux env d (b :: rest) =
      ⟨(runAux env d rest).dest, (runAux env d rest).totalKeys,
        (runAux env d rest).failedBuckets + 1⟩ := by
  have h1 : recoverBucket env d b = ⟨d, 0, false⟩ := by
    simp [recoverBucket, h]
  refine ⟨h1, ?_⟩
  simp [runAux, h1, Nat.add_comm]

/-- Witness for C1: the amended statement applied to a store with a
single bucket "b" that panics after yielding one entry. -/
theorem C1_top_panic_writes_nothing_witness :
    (⟨[98], [TopEntry.kv [107] [118]], .panicked⟩ : TopBucketSrc).outcome
        = .panicked ∧
    (recoverBucket permissiveEnv []
        ⟨[98], [TopEntry.kv [107] [118]], .panicked⟩ = ⟨[], 0, false⟩ ∧
      runAux permissiveEnv []
          (⟨[98], [TopEntry.kv [107] [118]], .panicked⟩ :: []) =
        ⟨(runAux permissiveEnv [] []).dest,
          (runAux permissiveEnv [] []).totalKeys,
          (runAux permissiveEnv [] []).failedBuckets + 1⟩) :=
  ⟨rfl, C1_top_panic_writes_nothing permissiveEnv [] _ [] rfl⟩

/-- C1 counterexample: bucket "b" yields one value entry and then its
enumeration panics (N = 1); the claim requires the destination to
contain that one entry under a bucket named "b", but the run leaves the
destination with no bucket "b" and zero entries in total. -/
theorem C1_counterexample :
    stagePairs [TopEntry.kv [107] [118]] = [([107], [118])] ∧
    (⟨[98], [TopEntry.kv [107] [118]], .panicked⟩ : TopBucketSrc).outcome
        = .panicked ∧
    lookupA (runRecovery permissiveEnv
        [⟨[98], [TopEntry.kv [107] [118]], .panicked⟩]).dest [98] = none ∧
    destCount (runRecovery permissiveEnv
        [⟨[98], [TopEntry.kv [107] [118]], .panicked⟩]).dest = 0 := by
  decide

/-- C2, amended: given that both stores opened (fatal open errors abort
the process before the loop and are outside this model), the exit status
is 0 if and only if no top-level bucket's own enumeration panicked and
every bucket's write transaction succeeded (top-level bucket creation
and commit).  A fault inside a sub-bucket's enumeration and an ordinary
read error (such as a listed bucket not found at descent) do not make
the bucket count as failed and do not affect the exit status. -/
theorem C2_exit_zero_iff (env : Env) (bs : List TopBucketSrc) :
    exitCode (runRecovery env bs) = 0 ↔
      ∀ b ∈ bs, b.outcome ≠ .panicked ∧ env.createTopOk b.name = true ∧
        env.commitOk b.name = true := by
  rw [← runAux_failed_zero env bs []]
  constructor
  · intro h0
    by_contra hne
    have hpos : (runAux env [] bs).failedBuckets > 0 :=
      Nat.pos_of_ne_zero hne
    simp [exitCode, runRecovery, hpos] at h0
  · intro h0
    simp [exitCode, runRecovery, h0]

/-- C2 counterexample: the only top-level bucket has a sub-bucket whose
enumeration panics (a fault is recorded for the bucket's subtree), yet
the run reports zero failed buckets and the exit status is 0, where the
claim requires a nonzero status. -/
theorem C2_counterexample :
    (⟨[⟨[113], some [114]⟩], true⟩ : SubBucketSrc).panics = true ∧
    (runRecovery permissiveEnv
      [⟨[97], [TopEntry.marker [115]
          (some ⟨[⟨[113], some [114]⟩], true⟩)], .ok⟩]).failedBuckets
        = 0 ∧
    exitCode (runRecovery permissiveEnv
      [⟨[97], [TopEntry.marker [115]
          (some ⟨[⟨[113], some [114]⟩], true⟩)], .ok⟩]) = 0 := by
  decide

/-- C3: a fault raised while enumerating one of a bucket's sub-buckets
truncates nothing outside that sub-bucket: the entire run (destination
contents, recovered-key total, failed-bucket count) is identical to the
run in which every sub-bucket's enumeration completes normally after the
same yielded entries.  In particular the faulted sub-bucket keeps
exactly the entries it yielded before the fault, the parent keeps all of
its own staged value entries and its other sub-buckets, and the parent's
enumeration continues past the faulted child. -/
theorem C3_subbucket_fault_isolated (env : Env)
    (bs : List TopBucketSrc) :
    runRecovery env (bs.map clearSubPanics) = runRecovery env bs :=
  runAux_map_clearSubPanics env bs []

/-- C4: fault isolation between top-level buckets does not leak:
whatever bucket b does (for example panic), every destination bucket
with a name other than b's is recovered exactly as in the run where b's
enumeration completes normally with the same yielded entries, no matter
where b sits in the listed order — so a fault never aborts the
per-bucket loop and never changes a sibling's recovered content. -/
theorem C4_fault_isolation_no_leak (env : Env)
    (pre post : List TopBucketSrc) (b : TopBucketSrc) (n : Bytes)
    (hn : n ≠ b.name) :
    lookupA (runRecovery env (pre ++ b :: post)).dest n
      = lookupA (runRecovery env
          (pre ++ ⟨b.name, b.entries, .ok⟩ :: post)).dest n := by
  unfold runRecovery
  rw [runAux_append env [] pre (b :: post),
    runAux_append env [] pre (⟨b.name, b.entries, .ok⟩ :: post)]
  simp only [runAux]
  refine agreeExcept_runAux env b.name post _ _ ?_ n hn
  intro m hm
  rw [recoverBucket_lookup_ne env _ b m hm,
    recoverBucket_lookup_ne env _ ⟨b.name, b.entries, .ok⟩ m hm]

/-- Witness for C4: a three-bucket store whose middle bucket panics; the
last bucket's recovered content is the same as in the fault-free run. -/
theorem C4_fault_isolation_no_leak_witness :
    ([99] : Bytes) ≠ [98] ∧
    lookupA (runRecovery permissiveEnv
        ([⟨[97], [TopEntry.kv [1] [2]], .ok⟩] ++
          ⟨[98], [TopEntry.kv [3] [4]], .panicked⟩ ::
            [⟨[99], [TopEntry.kv [5] [6]], .ok⟩])).dest [99]
      = lookupA (runRecovery permissiveEnv
          ([⟨[97], [TopEntry.kv [1] [2]], .ok⟩] ++
            ⟨[98], [TopEntry.kv [3] [4]], .ok⟩ ::
              [⟨[99], [TopEntry.kv [5] [6]], .ok⟩])).dest [99] :=
  ⟨by decide, C4_fault_isolation_no_leak permissiveEnv
    [⟨[97], [TopEntry.kv [1] [2]], .ok⟩]
    [⟨[99], [TopEntry.kv [5] [6]], .ok⟩]
    ⟨[98], [TopEntry.kv [3] [4]], .panicked⟩ [99] (by decide)⟩

/-- C5: recursion stops at one level of sub-buckets: an entry of a
sub-bucket that is itself a nested-bucket marker (depth greater than
one) is skipped — removing all such markers from every sub-bucket
changes nothing in the run (same destination contents, same recovered
total, same failed-bucket count), so the deeper bucket's contents are
never recovered and skipping them is not recorded as a fault. -/
theorem C5_depth_limit_skips_deep_markers (env : Env)
    (bs : List TopBucketSrc) :
    runRecovery env (bs.map dropDeepMarkers) = runRecovery env bs :=
  runAux_map_dropDeepMarkers env bs []

theorem stagePairs_append (l1 l2 : List TopEntry) :
    stagePairs (l1 ++ l2) = stagePairs l1 ++ stagePairs l2 := by
  simp [stagePairs, List.filterMap_append]

theorem stageSubs_append (l1 l2 : List TopEntry) :
    stageSubs (l1 ++ l2) = stageSubs l1 ++ stageSubs l2 := by
  simp [stageSubs, List.filterMap_append]

theorem stagePairs_cons_kv (k v : Bytes) (l : List TopEntry) :
    stagePairs (TopEntry.kv k v :: l) = (k, v) :: stagePairs l := rfl

theorem stageSubs_cons_kv (k v : Bytes) (l : List TopEntry) :
    stageSubs (TopEntry.kv k v :: l) = stageSubs l := rfl

/-- C6: during the destination write transaction for a top-level bucket,
a failing individual operation only skips itself: the transaction body
produces exactly the same bucket content and the same recovered count as
when the per-key puts that fail (and the sub-bucket creations that fail)
are removed from the staged lists beforehand — every other staged entry
and sub-bucket is still attempted and the transaction is not aborted —
and the bucket counts as failed only for a transaction-level destination
error (top-level bucket creation failure or commit failure), never for
an individual key-write failure. -/
theorem C6_individual_write_failures_skipped (env : Env)
    (c : DestBucket) (pairs : List (Bytes × Bytes))
    (subs : List (Bytes × List (Bytes × Bytes)))
    (d : Dest) (b : TopBucketSrc) :
    writeContent env c (pairs.filter fun p => env.putOk p.1 p.2)
        ((subs.filter fun s => env.createSubOk s.1).map
          fun s => (s.1, s.2.filter fun p => env.putOk p.1 p.2))
      = writeContent env c pairs subs ∧
    ((recoverBucket env d b).ok = true ↔
      (b.outcome ≠ .panicked ∧ env.createTopOk b.name = true ∧
        env.commitOk b.name = true)) := by
  refine ⟨?_, recoverBucket_ok_iff env d b⟩
  simp only [writeContent]
  rw [putPairs_filter env pairs c.pairs, putSubs_filter env subs c.subs]

/-- C7: a source entry whose value is present but zero-length is staged
and written as a flat key with a zero-length value, never treated as a
nested-bucket marker: after recovering the bucket, the destination
bucket holds the empty value under that key and no sub-bucket under that
key. -/
theorem C7_empty_value_flat_entry (env : Env) (d : Dest)
    (b : TopBucketSrc) (k : Bytes) (l1 l2 : List TopEntry)
    (hent : b.entries = l1 ++ TopEntry.kv k [] :: l2)
    (hout : b.outcome ≠ .panicked)
    (hct : env.createTopOk b.name = true)
    (hcm : env.commitOk b.name = true)
    (hput : env.putOk k [] = true)
    (hfresh : lookupA d b.name = none)
    (hK : ∀ e ∈ l1 ++ l2, topKey e ≠ k) :
    bucketView (recoverBucket env d b).dest b.name k
      = some (some [], none) := by
  have hsp : stagePairs b.entries
      = stagePairs l1 ++ (k, []) :: stagePairs l2 := by
    rw [hent, stagePairs_append, stagePairs_cons_kv]
  have hss : stageSubs b.entries = stageSubs l1 ++ stageSubs l2 := by
    rw [hent, stageSubs_append, stageSubs_cons_kv]
  have hl2 : ∀ p ∈ stagePairs l2, p.1 ≠ k := by
    intro p hp
    obtain ⟨e, he, hke⟩ := mem_stagePairs_key l2 p hp
    exact hke ▸ hK e (List.mem_append.mpr (Or.inr he))
  have hsubne : ∀ s ∈ stageSubs b.entries, s.1 ≠ k := by
    intro s hs
    rw [hss] at hs
    rcases List.mem_append.mp hs with hs | hs
    · obtain ⟨e, he, hke⟩ := mem_stageSubs_key l1 s hs
      exact hke ▸ hK e (List.mem_append.mpr (Or.inl he))
    · obtain ⟨e, he, hke⟩ := mem_stageSubs_key l2 s hs
      exact hke ▸ hK e (List.mem_append.mpr (Or.inr he))
  have hpl : lookupA (putPairs env [] (stagePairs b.entries)).1 k
      = some [] := by
    rw [hsp, putPairs_append_fst]
    simp only [putPairs, hput, if_true]
    rw [putPairs_lookup_notmem env (stagePairs l2) k hl2,
      lookupA_putA_self]
  have hsl : lookupA (putSubs env [] (stageSubs b.entries)).1 k
      = none := by
    rw [putSubs_lookup_notmem env (stageSubs b.entries) k hsubne []]
    rfl
  have hdest : (recoverBucket env d b).dest
      = putA d b.name
          ⟨(putPairs env [] (stagePairs b.entries)).1,
            (putSubs env [] (stageSubs b.entries)).1⟩ := by
    simp [recoverBucket, hout, hct, hcm, hfresh, writeContent]
  simp only [bucketView, hdest, lookupA_putA_self, Option.map_some']
  rw [hpl, hsl]

/-- Witness for C7: a single bucket holding one entry with key "k" and a
zero-length value; the destination stores the empty value under "k" and
no sub-bucket named "k". -/
theorem C7_empty_value_flat_entry_witness :
    bucketView (recoverBucket permissiveEnv []
        ⟨[116], [TopEntry.kv [107] []], .ok⟩).dest [116] [107]
      = some (some [], none) :=
  C7_empty_value_flat_entry permissiveEnv [] ⟨[116], [TopEntry.kv [107] []], .ok⟩
    [107] [] [] rfl (by decide) rfl rfl rfl rfl (by simp)

/-- C8: the recovery is deterministic: two runs of the engine against
the same source-store behaviour with the same destination environment,
each into a fresh empty destination, produce identical destination
stores and identical summary counts (total keys recovered, failed
buckets) and the same exit status.  In this embedding the engine is a
pure function of the source behaviour and the write environment, so
the two-run property is congruence of that function. -/
theorem C8_two_runs_identical (env1 env2 : Env)
    (bs1 bs2 : List TopBucketSrc) (henv : env1 = env2)
    (hbs : bs1 = bs2) :
    (runRecovery env1 bs1).dest = (runRecovery env2 bs2).dest ∧
    (runRecovery env1 bs1).totalKeys
      = (runRecovery env2 bs2).totalKeys ∧
    (runRecovery env1 bs1).failedBuckets
      = (runRecovery env2 bs2).failedBuckets ∧
    exitCode (runRecovery env1 bs1) = exitCode (runRecovery env2 bs2) := by
  subst henv
  subst hbs
  exact ⟨rfl, rfl, rfl, rfl⟩

/-- Witness for C8: the two-run property at a concrete one-bucket
store. -/
theorem C8_two_runs_identical_witness :
    permissiveEnv = permissiveEnv ∧
    ([⟨[97], [TopEntry.kv [1] [2]], .ok⟩] : List TopBucketSrc)
        = [⟨[97], [TopEntry.kv [1] [2]], .ok⟩] ∧
    ((runRecovery permissiveEnv
          [⟨[97], [TopEntry.kv [1] [2]], .ok⟩]).dest
        = (runRecovery permissiveEnv
            [⟨[97], [TopEntry.kv [1] [2]], .ok⟩]).dest ∧
      (runRecovery permissiveEnv
          [⟨[97], [TopEntry.kv [1] [2]], .ok⟩]).totalKeys
        = (runRecovery permissiveEnv
            [⟨[97], [TopEntry.kv [1] [2]], .ok⟩]).totalKeys ∧
      (runRecovery permissiveEnv
          [⟨[97], [TopEntry.kv [1] [2]], .ok⟩]).failedBuckets
        = (runRecovery permissiveEnv
            [⟨[97], [TopEntry.kv [1] [2]], .ok⟩]).failedBuckets ∧
      exitCode (runRecovery permissiveEnv
          [⟨[97], [TopEntry.kv [1] [2]], .ok⟩])
        = exitCode (runRecovery permissiveEnv
            [⟨[97], [TopEntry.kv [1] [2]], .ok⟩])) :=
  ⟨rfl, rfl, C8_two_runs_identical permissiveEnv permissiveEnv _ _ rfl rfl⟩

/-- C9: a listed top-level bucket whose read transaction returns an
ordinary error (bucket not found at descent, or any error value from the
enumeration, as opposed to a panic) behaves exactly like a normal read
with the same yielded entries: the write transaction still runs, a
bucket with that name exists in the destination afterwards (possibly
empty), `recoverBucket` reports ok = true (given the write transaction
itself succeeds), and the bucket does not count towards the
failed-bucket total. -/
theorem C9_read_error_still_writes (env : Env) (d : Dest)
    (b : TopBucketSrc) (h1 : env.createTopOk b.name = true)
    (h2 : env.commitOk b.name = true) :
    recoverBucket env d ⟨b.name, b.entries, .errored⟩
        = recoverBucket env d ⟨b.name, b.entries, .ok⟩ ∧
    (recoverBucket env d ⟨b.name, b.entries, .errored⟩).ok = true ∧
    (lookupA (recoverBucket env d
        ⟨b.name, b.entries, .errored⟩).dest b.name).isSome = true ∧
    (runAux env d [⟨b.name, b.entries, .errored⟩]).failedBuckets = 0 := by
  refine ⟨rfl, ?_, ?_, ?_⟩
  · simp [recoverBucket, h1, h2]
  · simp [recoverBucket, h1, h2, lookupA_putA_self]
  · simp [runAux, recoverBucket, h1, h2]

/-- Witness for C9: a store listing one bucket "e" whose read errors
(yielding nothing); the destination still gets an empty bucket "e" and
the bucket is reported successful. -/
theorem C9_read_error_still_writes_witness :
    permissiveEnv.createTopOk [101] = true ∧
    permissiveEnv.commitOk [101] = true ∧
    (recoverBucket permissiveEnv [] ⟨[101], [], .errored⟩
        = recoverBucket permissiveEnv [] ⟨[101], [], .ok⟩ ∧
      (recoverBucket permissiveEnv [] ⟨[101], [], .errored⟩).ok = true ∧
      (lookupA (recoverBucket permissiveEnv []
          ⟨[101], [], .errored⟩).dest [101]).isSome = true ∧
      (runAux permissiveEnv [] [⟨[101], [], .errored⟩]).failedBuckets
        = 0) :=
  ⟨rfl, rfl,
    C9_read_error_still_writes permissiveEnv [] ⟨[101], [], .ok⟩ rfl rfl⟩

/-- C10 counterexample: with a destination whose transactions never
commit (e.g. the disk fills at commit), the only bucket's single pair is
put successfully inside the transaction — so `recovered` is incremented
and the printed total is 1 — but the failed commit rolls the transaction
back, so the destination contains 0 entries: the printed total exceeds
the number of entries present in the destination. -/
theorem C10_counterexample :
    (runRecovery envNoCommit
        [⟨[97], [TopEntry.kv [107] [118]], .ok⟩]).totalKeys = 1 ∧
    destCount (runRecovery envNoCommit
        [⟨[97], [TopEntry.kv [107] [118]], .ok⟩]).dest = 0 := by
  decide

/-- C10, amended: the reported total of recovered keys counts exactly
the key/value put operations that succeeded inside the per-bucket write
transactions, and is never incremented for entries merely staged from
the source; however a transaction whose commit fails is rolled back
while its already-incremented count is kept, so the printed total can
exceed the destination's entries.  When every per-bucket transaction
commits — and bucket names and staged keys are unique, as bbolt
guarantees for a real store — the printed total equals the number of
entries present in the destination. -/
theorem C10_total_matches_dest_when_commits (env : Env)
    (bs : List TopBucketSrc)
    (hnd : (bs.map fun b => b.name).Nodup)
    (hcm : ∀ b ∈ bs, env.commitOk b.name = true)
    (h1 : ∀ b ∈ bs, ((stagePairs b.entries).map Prod.fst).Nodup)
    (h2 : ∀ b ∈ bs, ((stageSubs b.entries).map Prod.fst).Nodup)
    (h3 : ∀ b ∈ bs, ∀ s ∈ stageSubs b.entries,
      (s.2.map Prod.fst).Nodup) :
    (runRecovery env bs).totalKeys
      = destCount (runRecovery env bs).dest := by
  have h := runAux_count env bs hnd hcm h1 h2 h3 [] (by simp)
  show (runAux env [] bs).totalKeys = destCount (runAux env [] bs).dest
  rw [h]
  simp [destCount]

/-- Witness for C10: a two-bucket store (one bucket holding a pair and a
sub-bucket with one pair, the other holding one pair) recovered under a
fully committing destination: the printed total equals the destination
entry count. -/
theorem C10_total_matches_dest_when_commits_witness :
    (([⟨[97], [TopEntry.kv [107] [118],
          TopEntry.marker [115] (some ⟨[⟨[113], some [114]⟩], false⟩)],
        .ok⟩,
      ⟨[98], [TopEntry.kv [1] [2]], .ok⟩] :
        List TopBucketSrc).map fun b => b.name).Nodup ∧
    (runRecovery permissiveEnv
        [⟨[97], [TopEntry.kv [107] [118],
            TopEntry.marker [115] (some ⟨[⟨[113], some [114]⟩], false⟩)],
          .ok⟩,
          ⟨[98], [TopEntry.kv [1] [2]], .ok⟩]).totalKeys
      = destCount (runRecovery permissiveEnv
          [⟨[97], [TopEntry.kv [107] [118],
              TopEntry.marker [115] (some ⟨[⟨[113], some [114]⟩], false⟩)],
            .ok⟩,
            ⟨[98], [TopEntry.kv [1] [2]], .ok⟩]).dest :=
  ⟨by decide,
    C10_total_matches_dest_when_commits permissiveEnv _
      (by decide) (by decide) (by decide) (by decide) (by decide)⟩
